import Mathlib

set_option maxRecDepth 100000

/-!
Verification development for the face-encoding engine of the
Katomaran Face AI platform (python-services/face_recognition).

The Python sources `faiss_manager.py` and `face_processor.py` are shallowly
embedded below.  Scalars are modelled as rationals (`ℚ`); the external
numerical libraries (numpy, cv2, faiss) appear as follows:

* calls whose exact numeric output the repository's logic depends on only
  opaquely (np.linalg.norm, cv2.resize, cv2.cvtColor, cv2.Sobel, np.sqrt,
  np.arctan2 and the bin assignment of np.histogram) are fields of the `Libs`
  structure, an explicit parameter of every embedded function;
* the faiss flat L2 index is modelled concretely by its documented behaviour:
  exact squared-L2 brute-force search returning the k nearest stored vectors
  in ascending distance order, ties broken by lowest insertion position.

Python float division by zero produces NaN; in the rational model `x / 0 = 0`.
Both make the "normalized" image of the zero vector a non-unit vector, which
is the only property relied on below.  Dict keys `str(i)` are modelled by the
integer `i` itself (`str` is injective on ℕ).
-/

namespace FaceRec

/-- A stored or query vector (a 1-D numpy float array). -/
abbrev Vec := List ℚ

/-- A single-channel (grayscale) image: a list of rows. -/
abbrev Mat := List (List ℚ)

/-- An RGB image: a list of rows of (r, g, b) pixels. -/
abbrev RGBMat := List (List (ℚ × ℚ × ℚ))

/-- Width of a grayscale matrix (`shape[1]` of a numpy 2-D array). -/
def matW (m : Mat) : ℕ := (m.headD []).length

/-- Width of an RGB matrix (`shape[1]` of a numpy 3-D array). -/
def rgbW (m : RGBMat) : ℕ := (m.headD []).length

/-- Total number of scalar entries of an RGB region (`ndarray.size`). -/
def rgbSize (m : RGBMat) : ℕ := (m.map (fun row => row.length * 3)).sum

/-- Elementwise combination of two matrices (numpy broadcasting). -/
def mat2 (f : ℚ → ℚ → ℚ) (a b : Mat) : Mat :=
  List.zipWith (List.zipWith f) a b

/-- 2-D slice `m[ys:ye, xs:xe]` of a matrix, Python slicing semantics. -/
def slice2 (m : Mat) (ys ye xs xe : ℕ) : Mat :=
  ((m.drop ys).take (ye - ys)).map (fun row => (row.drop xs).take (xe - xs))

/-- 2-D slice `m[ys:ye, xs:xe]` of an RGB image, Python slicing semantics. -/
def cropRGB (image : RGBMat) (ys ye xs xe : ℕ) : RGBMat :=
  ((image.drop ys).take (ye - ys)).map (fun row => (row.drop xs).take (xe - xs))

/-- Python's `enumerate`, starting at `n`. -/
def enumerate (n : ℕ) : List α → List (ℕ × α)
  | [] => []
  | a :: l => (n, a) :: enumerate (n + 1) l

/-- First-match association-list lookup (Python dict read access). -/
def lookupA (d : List (ℕ × α)) (k : ℕ) : Option α :=
  match d with
  | [] => none
  | p :: rest => if p.1 = k then some p.2 else lookupA rest k

/-- The external numerical routines used by the Python code, as opaque
capabilities: `np.linalg.norm`, `cv2.resize` (to 128×128), `cv2.cvtColor`
(RGB→gray), `cv2.Sobel` (d/dx and d/dy), `np.sqrt`, `np.arctan2`, and the
bin-index function of `np.histogram(bins := 9, range := (-pi, pi))`
(`none` means the value falls outside the histogram range). -/
structure Libs where
  norm : Vec → ℚ
  resize : RGBMat → RGBMat
  toGray : RGBMat → Mat
  sobelX : Mat → Mat
  sobelY : Mat → Mat
  sqrtQ : ℚ → ℚ
  atan2Q : ℚ → ℚ → ℚ
  binOf : ℚ → Option ℕ

/-- `v / np.linalg.norm(v)` — the normalization step shared by
`add_face_encoding`, `search_similar_faces` and `generate_face_encoding`. -/
def normalize (L : Libs) (v : Vec) : Vec :=
  v.map (fun a => a / L.norm v)

/-- Sum of squares of a vector (the square of its Euclidean norm). -/
def sqSum (v : Vec) : ℚ := (v.map (fun a => a * a)).sum

/-- Squared L2 distance, the metric of `faiss.IndexFlatL2`. -/
def sqDist (u v : Vec) : ℚ :=
  (List.zipWith (fun a b => (a - b) * (a - b)) u v).sum

/-- `np.histogram(angles, bins := 9, weights := mags, range := (-pi, pi))`:
the weight mass falling into each of the 9 bins. -/
def histogram9 (binOf : ℚ → Option ℕ) (angles weights : List ℚ) : List ℚ :=
  (List.range 9).map
    (fun t => (((angles.zip weights).filter (fun p => binOf p.1 = some t)).map (fun p => p.2)).sum)

/-- The concatenated per-cell histogram features of
`FaceProcessor._compute_hog_features` (face_processor.py 224-254):
Sobel gradients, per-pixel magnitude and angle, a 16-pixel cell grid,
and one 9-bin magnitude-weighted orientation histogram per cell,
concatenated in row-major cell order. -/
def hog_raw (L : Libs) (face_gray : Mat) : Vec :=
  let grad_x := L.sobelX face_gray
  let grad_y := L.sobelY face_gray
  let magnitude := mat2 (fun a b => L.sqrtQ (a * a + b * b)) grad_x grad_y
  let angle := mat2 (fun a b => L.atan2Q b a) grad_x grad_y
  let cell_size := 16
  let h := face_gray.length
  let w := matW face_gray
  let cells_x := w / cell_size
  let cells_y := h / cell_size
  (List.range cells_y).flatMap (fun i =>
    (List.range cells_x).flatMap (fun j =>
      let y_start := i * cell_size
      let y_end := min ((i + 1) * cell_size) h
      let x_start := j * cell_size
      let x_end := min ((j + 1) * cell_size) w
      let cell_magnitude := (slice2 magnitude y_start y_end x_start x_end).flatten
      let cell_angle := (slice2 angle y_start y_end x_start x_end).flatten
      histogram9 L.binOf cell_angle cell_magnitude))

/-- `FaceProcessor._compute_hog_features` (face_processor.py 213-268):
the concatenated histograms, truncated to 128 entries or zero-padded up to
128 entries (lines 256-261).  The `except` branch of the source (random
features on internal failure, the defect flagged in the spec) is
unreachable here: the model is total. -/
def compute_hog_features (L : Libs) (face_gray : Mat) : Vec :=
  let features := hog_raw L face_gray
  if 128 < features.length then features.take 128
  else features ++ List.replicate (128 - features.length) 0

/-- Bounding box of a detected face (pixel coordinates, non-negative). -/
structure BBox where
  x : ℕ
  y : ℕ
  width : ℕ
  height : ℕ
deriving DecidableEq

/-- The cropped, padded face region of `generate_face_encoding`
(face_processor.py 173-186). -/
def face_region_of (image : RGBMat) (bb : BBox) : RGBMat :=
  let padding := 20
  let x_start := bb.x - padding
  let y_start := bb.y - padding
  let x_end := min (rgbW image) (bb.x + bb.width + padding)
  let y_end := min image.length (bb.y + bb.height + padding)
  cropRGB image y_start y_end x_start x_end

/-- The feature vector of the success path of `generate_face_encoding`
before the final normalization (resize → grayscale → HOG). -/
def raw_features (L : Libs) (image : RGBMat) (bb : BBox) : Vec :=
  compute_hog_features L (L.toGray (L.resize (face_region_of image bb)))

/-- `FaceProcessor.generate_face_encoding` (face_processor.py 161-211):
crop with 20px padding clamped to the image, reject an empty region,
resize to 128×128, convert to grayscale, HOG features, normalize.
The raised `RuntimeError` is the `Except.error` case. -/
def generate_face_encoding (L : Libs) (image : RGBMat) (bb : BBox) :
    Except String Vec :=
  if rgbSize (face_region_of image bb) = 0 then
    Except.error "Face encoding generation failed: Invalid face region"
  else
    Except.ok (normalize L (raw_features L image bb))

/-- The extra metadata registration passes to `add_face_encoding`
(face_processor.py 317-321). -/
structure AddMeta where
  confidence : ℚ
  image_quality : String
  bounding_box : BBox
deriving DecidableEq

/-- The record stored per index position (faiss_manager.py 76-84):
the fixed keys plus the merged-in additional metadata. -/
structure FaceMeta where
  face_id : String
  person_name : String
  index_position : ℕ
  additional : Option AddMeta
deriving DecidableEq

/-- In-memory state of a `FAISSManager`: the flat L2 index buffer
(insertion order), the position-keyed metadata dict, and the two
configuration attributes set in `__init__`. -/
structure FMState where
  vectors : List Vec
  metadata : List (ℕ × FaceMeta)
  dimension : ℕ
  threshold : ℚ
deriving DecidableEq

/-- The two files on disk: `face_encodings.index` and `face_metadata.json`
(`none` = the file does not exist). -/
structure Disk where
  indexFile : Option (List Vec)
  metadataFile : Option (List (ℕ × FaceMeta))
deriving DecidableEq

/-- A disk with neither file present. -/
def emptyDisk : Disk := ⟨none, none⟩

/-- `FAISSManager._initialize_index` (faiss_manager.py 28-46), run by
`__init__` after setting `dimension = 128` and `threshold = 0.6`: load both
files when both exist, otherwise start from a fresh empty index. -/
def initialize_index (d : Disk) : FMState :=
  match d.indexFile, d.metadataFile with
  | some vs, some md => ⟨vs, md, 128, 3 / 5⟩
  | _, _ => ⟨[], [], 128, 3 / 5⟩

/-- `FAISSManager._save_index` (faiss_manager.py 163-171): write the index
buffer and the metadata dict to their two files. -/
def save_index (s : FMState) (_d : Disk) : Disk :=
  ⟨some s.vectors, some s.metadata⟩

/-- Python dict assignment `d[k] = v`: overwrite an existing key in place,
otherwise append at the end (dicts preserve insertion order). -/
def dictInsert (d : List (ℕ × FaceMeta)) (k : ℕ) (v : FaceMeta) :
    List (ℕ × FaceMeta) :=
  if (lookupA d k).isSome then d.map (fun p => if p.1 = k then (k, v) else p)
  else d ++ [(k, v)]

/-- `FAISSManager.add_face_encoding` (faiss_manager.py 48-94).
A 1-D input whose length differs from `self.dimension` makes
`encoding.reshape(self.dimension)` raise; the handler logs and returns
`False` leaving the state untouched.  Otherwise the input is normalized,
appended to the index, and its metadata stored under the new position
`ntotal - 1`; the function returns `True`. -/
def add_face_encoding (L : Libs) (s : FMState) (encoding : Vec)
    (face_id person_name : String) (additional : Option AddMeta) :
    Bool × FMState :=
  if encoding.length ≠ s.dimension then (false, s)
  else
    let enc := normalize L encoding
    let vectors := s.vectors ++ [enc]
    let index_position := vectors.length - 1
    let meta : FaceMeta := ⟨face_id, person_name, index_position, additional⟩
    (true, { s with vectors := vectors
                    metadata := dictInsert s.metadata index_position meta })

/-- Ascending (distance, position) order: the order in which
`faiss.IndexFlatL2.search` reports its results — ascending distance,
equal distances by lowest position. -/
def pairLE (a b : ℚ × ℕ) : Prop :=
  a.1 < b.1 ∨ (a.1 = b.1 ∧ a.2 ≤ b.2)

instance : DecidableRel pairLE := fun a b => by
  unfold pairLE; infer_instance

instance : IsTotal (ℚ × ℕ) pairLE where
  total a b := by
    rcases lt_trichotomy a.1 b.1 with h | h | h
    · exact Or.inl (Or.inl h)
    · rcases le_total a.2 b.2 with h2 | h2
      · exact Or.inl (Or.inr ⟨h, h2⟩)
      · exact Or.inr (Or.inr ⟨h.symm, h2⟩)
    · exact Or.inr (Or.inl h)

instance : IsTrans (ℚ × ℕ) pairLE where
  trans a b c hab hbc := by
    rcases hab with h1 | ⟨e1, l1⟩ <;> rcases hbc with h2 | ⟨e2, l2⟩
    · exact Or.inl (h1.trans h2)
    · exact Or.inl (e2 ▸ h1)
    · exact Or.inl (e1 ▸ h2)
    · exact Or.inr ⟨e1.trans e2, l1.trans l2⟩

/-- `self.index.search(q, k)` on a flat L2 index holding `vectors`:
the `k` stored vectors nearest to `q` in squared L2 distance, reported as
(distance, position) in ascending distance order, ties by lowest position. -/
def faiss_search (vectors : List Vec) (q : Vec) (k : ℕ) : List (ℚ × ℕ) :=
  (List.insertionSort pairLE
    ((enumerate 0 vectors).map (fun p => (sqDist q p.2, p.1)))).take k

/-- One entry of the result list of `search_similar_faces`
(faiss_manager.py 133-140). -/
structure SearchResult where
  face_id : String
  person_name : String
  similarity : ℚ
  distance : ℚ
  index_position : ℕ
  rank : ℕ
deriving DecidableEq

/-- The threshold test of faiss_manager.py 131:
`similarity >= (1 - self.threshold)` with `similarity = max(0, 1 - distance)`
for a (distance, position) candidate. -/
def accept (threshold : ℚ) (c : ℚ × ℕ) : Bool :=
  decide (1 - threshold ≤ max 0 (1 - c.1))

/-- The result record built at faiss_manager.py 127-140 from the candidate
at enumeration position `p.1` (metadata misses fall back to "unknown"). -/
def mk_search_result (metadata : List (ℕ × FaceMeta)) (p : ℕ × (ℚ × ℕ)) :
    SearchResult :=
  let md := lookupA metadata p.2.2
  { face_id := (md.map FaceMeta.face_id).getD "unknown"
    person_name := (md.map FaceMeta.person_name).getD "unknown"
    similarity := max 0 (1 - p.2.1)
    distance := p.2.1
    index_position := p.2.2
    rank := p.1 + 1 }

/-- `FAISSManager.search_similar_faces` (faiss_manager.py 96-148).
An empty index returns `[]`; a query whose length differs from
`self.dimension` makes `reshape` raise, the handler returns `[]`.
Otherwise: normalize the query, take the `min k ntotal` nearest candidates
from faiss, and keep those passing the threshold test, ranked by their
enumeration position.  (The `index == -1` guard of the source never fires
because `k` is capped at `ntotal`.) -/
def search_similar_faces (L : Libs) (s : FMState) (query : Vec) (k : ℕ) :
    List SearchResult :=
  if s.vectors.length = 0 then []
  else if query.length ≠ s.dimension then []
  else
    let q := normalize L query
    let cands := faiss_search s.vectors q (min k s.vectors.length)
    (enumerate 0 cands).filterMap (fun p =>
      if accept s.threshold p.2 then some (mk_search_result s.metadata p)
      else none)

/-- `FAISSManager.get_best_match` (faiss_manager.py 150-161). -/
def get_best_match (L : Libs) (s : FMState) (query : Vec) :
    Option SearchResult :=
  (search_similar_faces L s query 1).head?

/-- `FAISSManager.clear_index` (faiss_manager.py 182-190): replace the index
by a fresh one and the metadata by an empty dict (then save). -/
def clear_index (s : FMState) : FMState :=
  { s with vectors := [], metadata := [] }

/-- A detection as produced by `detect_faces` (face_processor.py 106-115),
consumed as input by the recognition path. -/
structure Detection where
  bounding_box : BBox
  confidence : ℚ
  detection_id : ℕ
deriving DecidableEq

/-- One per-face entry of `processed_faces` (face_processor.py 386-395). -/
structure FaceOutcome where
  encoding : Vec
  confidence : ℚ
  bounding_box : BBox
  detection_id : ℕ
  name : String
  similarity : ℚ
  is_recognized : Bool
  top_matches : List SearchResult
deriving DecidableEq

/-- The dictionary returned by `process_image_for_recognition`
(face_processor.py 359-405); fields absent from a branch are `none`. -/
structure RecognitionResult where
  success : Bool
  faces : List FaceOutcome
  total_detected : Option ℕ
  total_processed : Option ℕ
  message : Option String
deriving DecidableEq

/-- The body of the per-detection `try` block of
`process_image_for_recognition` (face_processor.py 368-398): `none` when
`generate_face_encoding` raises (the face is skipped by `continue`),
otherwise the face's outcome. -/
def try_face (L : Libs) (s : FMState) (image : RGBMat) (face : Detection) :
    Option FaceOutcome :=
  match generate_face_encoding L image face.bounding_box with
  | Except.error _ => none
  | Except.ok encoding =>
    let match_list := search_similar_faces L s encoding 3
    let best_match := get_best_match L s encoding
    let recognized_name := ((best_match.map SearchResult.person_name)).getD "Unknown"
    let similarity := ((best_match.map SearchResult.similarity)).getD 0
    let is_recognized := best_match.isSome
    some { encoding := encoding
           confidence := face.confidence
           bounding_box := face.bounding_box
           detection_id := face.detection_id
           name := recognized_name
           similarity := similarity
           is_recognized := is_recognized
           top_matches := match_list.take 3 }

/-- `FaceProcessor.process_image_for_recognition` (face_processor.py
342-412), from the point where detections are available (preprocessing and
mediapipe detection are external inputs here). -/
def process_image_for_recognition (L : Libs) (s : FMState) (image : RGBMat)
    (detected_faces : List Detection) : RecognitionResult :=
  if detected_faces.isEmpty then
    { success := true, faces := [], total_detected := none
      total_processed := none, message := some "No faces detected in the image" }
  else
    let processed_faces := detected_faces.filterMap (try_face L s image)
    { success := true, faces := processed_faces
      total_detected := some detected_faces.length
      total_processed := some processed_faces.length
      message := none }

/-- The mutating operations of the index lifecycle. -/
inductive Op where
  | addop (encoding : Vec) (face_id person_name : String)
      (additional : Option AddMeta)
  | clearop
deriving DecidableEq

/-- Execute one operation on the in-memory state. -/
def step (L : Libs) (s : FMState) : Op → FMState
  | Op.addop e f p a => (add_face_encoding L s e f p a).2
  | Op.clearop => clear_index s

/-- Execute a sequence of operations. -/
def run (L : Libs) (s : FMState) (ops : List Op) : FMState :=
  ops.foldl (step L) s

/-- The (vector, record) pairs a sequence of operations is expected to leave
stored, replayed from the operations themselves: each accepted `addop`
appends its normalized vector paired with the record built for it, a
`clearop` discards everything. -/
def expectedPairs (L : Libs) (acc : List (Vec × FaceMeta)) :
    List Op → List (Vec × FaceMeta)
  | [] => acc
  | Op.addop e f p a :: rest =>
      expectedPairs L
        (if e.length = 128 then
          acc ++ [(normalize L e, ⟨f, p, acc.length, a⟩)]
        else acc) rest
  | Op.clearop :: rest => expectedPairs L [] rest

/-- The state holding exactly the given pairs: vector `i` of the index is
the first component of pair `i`, and the metadata dict maps key `i` to the
second component of pair `i`. -/
def pairedState (ps : List (Vec × FaceMeta)) : FMState :=
  ⟨ps.map (fun p => p.1), enumerate 0 (ps.map (fun p => p.2)), 128, 3 / 5⟩

/-! ### Helper lemmas -/

theorem length_enumerate (n : ℕ) (l : List α) :
    (enumerate n l).length = l.length := by
  induction l generalizing n with
  | nil => rfl
  | cons a t ih => simp [enumerate, ih]

theorem enumerate_append (n : ℕ) (l r : List α) :
    enumerate n (l ++ r) = enumerate n l ++ enumerate (n + l.length) r := by
  induction l generalizing n with
  | nil => simp [enumerate]
  | cons a t ih =>
    have hih := ih (n + 1)
    rw [show n + 1 + t.length = n + (t.length + 1) from by omega] at hih
    simp only [List.cons_append, enumerate, List.length_cons]
    exact congrArg (List.cons (n, a)) hih

theorem mem_enumerate {p : ℕ × α} {l : List α} (n : ℕ)
    (h : p ∈ enumerate n l) :
    ∃ j, j < l.length ∧ p.1 = n + j ∧ l[j]? = some p.2 := by
  induction l generalizing n with
  | nil => simp [enumerate] at h
  | cons a t ih =>
    rw [enumerate] at h
    rcases List.mem_cons.mp h with h | h
    · exact ⟨0, Nat.succ_pos _, by simp [h], by simp [h]⟩
    · rcases ih (n + 1) h with ⟨j, hj, h1, h2⟩
      exact ⟨j + 1, by simpa using hj, by omega, by simpa using h2⟩

theorem mem_enumerate_snd {p : ℕ × α} {l : List α} (n : ℕ)
    (h : p ∈ enumerate n l) : p.2 ∈ l := by
  rcases mem_enumerate n h with ⟨j, hj, _, h2⟩
  exact List.getElem?_mem h2

theorem pairwise_enumerate {R : α → α → Prop} {l : List α} (n : ℕ)
    (h : List.Pairwise R l) :
    List.Pairwise (fun p q => R p.2 q.2) (enumerate n l) := by
  induction l generalizing n with
  | nil => exact List.Pairwise.nil
  | cons a t ih =>
    rcases List.pairwise_cons.mp h with ⟨ha, ht⟩
    exact List.pairwise_cons.mpr
      ⟨fun q hq => ha q.2 (mem_enumerate_snd (n + 1) hq), ih (n + 1) ht⟩

theorem enumerate_take (n m : ℕ) (l : List α) :
    (enumerate n l).take m = enumerate n (l.take m) := by
  induction l generalizing n m with
  | nil => simp [enumerate]
  | cons a t ih =>
    cases m with
    | zero => simp [enumerate]
    | succ m => simp [enumerate, ih]

theorem enumerate_map_rank (n : ℕ) (l : List α) :
    (enumerate n l).map (fun p => p.1 + 1) = List.range' (n + 1) l.length := by
  induction l generalizing n with
  | nil => rfl
  | cons a t ih => simp [enumerate, List.range', ih]

theorem lookupA_enumerate_of_ge {l : List α} {n k : ℕ} (h : n + l.length ≤ k) :
    lookupA (enumerate n l) k = none := by
  induction l generalizing n with
  | nil => rfl
  | cons a t ih =>
    simp only [enumerate, lookupA, List.length_cons] at *
    rw [if_neg (by omega)]
    exact ih (by omega)

theorem lookupA_append_of_none {d e : List (ℕ × α)} {k : ℕ}
    (h : lookupA d k = none) : lookupA (d ++ e) k = lookupA e k := by
  induction d with
  | nil => rfl
  | cons p rest ih =>
    simp only [lookupA] at h ⊢
    by_cases hp : p.1 = k
    · rw [if_pos hp] at h; cases h
    · rw [if_neg hp] at h ⊢
      exact ih h

theorem lookupA_dictInsert_self (d : List (ℕ × FaceMeta)) (k : ℕ)
    (v : FaceMeta) : lookupA (dictInsert d k v) k = some v := by
  unfold dictInsert
  by_cases h : (lookupA d k).isSome
  · rw [if_pos h]
    induction d with
    | nil => simp [lookupA] at h
    | cons p rest ih =>
      simp only [lookupA, List.map_cons] at h ⊢
      by_cases hp : p.1 = k
      · simp [hp, lookupA]
      · rw [if_neg hp] at h
        simp only [if_neg hp, lookupA, if_neg hp]
        exact ih h
  · rw [if_neg h]
    rw [lookupA_append_of_none (Option.not_isSome_iff_eq_none.mp h)]
    simp [lookupA]

theorem dictInsert_fresh (l : List FaceMeta) (v : FaceMeta) :
    dictInsert (enumerate 0 l) l.length v = enumerate 0 (l ++ [v]) := by
  have h0 : lookupA (enumerate 0 l) l.length = none :=
    lookupA_enumerate_of_ge (by omega)
  unfold dictInsert
  rw [h0]
  simp only [Option.isSome_none, Bool.false_eq_true, if_false]
  rw [enumerate_append]
  simp [enumerate]

theorem filterMap_if_eq_map_filter (l : List γ) (p : γ → Bool) (f : γ → β) :
    l.filterMap (fun x => if p x then some (f x) else none) =
      (l.filter p).map f := by
  induction l with
  | nil => rfl
  | cons x xs ih =>
    by_cases hp : p x
    · simp [List.filterMap_cons, hp, ih]
    · simp [List.filterMap_cons, hp, ih]

theorem filterMap_take_of_antitone (l : List γ) (p : γ → Bool) (f : γ → β)
    (h : List.Pairwise (fun a b => p b = true → p a = true) l) :
    l.filterMap (fun x => if p x then some (f x) else none) =
      (l.map f).take (l.countP p) := by
  induction l with
  | nil => rfl
  | cons x xs ih =>
    rcases List.pairwise_cons.mp h with ⟨hx, hxs⟩
    by_cases hp : p x
    · rw [List.filterMap_cons_some (by rw [if_pos hp]),
        List.countP_cons_of_pos _ _ hp, List.map_cons, List.take_succ_cons,
        ih hxs]
    · have hall : ∀ y ∈ xs, ¬(p y = true) := by
        intro y hy hc
        exact hp (hx y hy hc)
      rw [List.filterMap_cons_none (by rw [if_neg hp]),
        List.countP_cons_of_neg _ _ hp]
      rw [List.countP_eq_zero.mpr hall, List.take_zero]
      rw [List.filterMap_eq_nil_iff.mpr]
      intro a ha
      rw [if_neg (hall a ha)]

theorem mem_zipWith {f : α → β → γ} :
    ∀ {a : List α} {b : List β} {x : γ}, x ∈ List.zipWith f a b →
      ∃ u v, u ∈ a ∧ v ∈ b ∧ x = f u v
  | [], _, _, h => by simp at h
  | _ :: _, [], _, h => by simp at h
  | u :: us, v :: vs, x, h => by
    rcases List.mem_cons.mp h with h | h
    · exact ⟨u, v, List.mem_cons_self _ _, List.mem_cons_self _ _, h⟩
    · rcases mem_zipWith h with ⟨p, q, hu, hv, hx⟩
      exact ⟨p, q, List.mem_cons_of_mem _ hu, List.mem_cons_of_mem _ hv, hx⟩

theorem sqSum_map_div (v : Vec) (c : ℚ) :
    sqSum (v.map (fun a => a / c)) = sqSum v / (c * c) := by
  induction v with
  | nil => simp [sqSum]
  | cons a t ih =>
    simp only [List.map_cons, sqSum, List.sum_cons] at *
    rw [ih, div_mul_div_comm, div_add_div_same]

theorem sqSum_normalize {L : Libs} {v : Vec}
    (hnorm : L.norm v * L.norm v = sqSum v) (hnz : sqSum v ≠ 0) :
    sqSum (normalize L v) = 1 := by
  unfold normalize
  rw [sqSum_map_div, hnorm, div_self hnz]

theorem length_normalize (L : Libs) (v : Vec) :
    (normalize L v).length = v.length :=
  List.length_map _ _

theorem normalize_replicate_zero (L : Libs) (n : ℕ) :
    normalize L (List.replicate n 0) = List.replicate n 0 := by
  unfold normalize
  rw [List.map_replicate, zero_div]

theorem sqSum_replicate_zero (n : ℕ) : sqSum (List.replicate n 0) = 0 := by
  unfold sqSum
  rw [List.map_replicate, mul_zero, List.sum_replicate, smul_zero]

theorem compute_hog_length (L : Libs) (m : Mat) :
    (compute_hog_features L m).length = 128 := by
  unfold compute_hog_features
  by_cases h : 128 < (hog_raw L m).length
  · simp only [if_pos h, List.length_take]
    omega
  · simp only [if_neg h, List.length_append, List.length_replicate]
    omega

theorem mem_mat2_zero {f : ℚ → ℚ → ℚ} {gx gy : Mat} (hf : f 0 0 = 0)
    (hx : ∀ r ∈ gx, ∀ a ∈ r, a = (0:ℚ)) (hy : ∀ r ∈ gy, ∀ a ∈ r, a = (0:ℚ)) :
    ∀ r ∈ mat2 f gx gy, ∀ a ∈ r, a = 0 := by
  intro r hr a ha
  rcases mem_zipWith hr with ⟨u, v, hu, hv, hrw⟩
  subst hrw
  rcases mem_zipWith ha with ⟨p, q, hp, hq, hav⟩
  rw [hav, hx u hu p hp, hy v hv q hq, hf]

theorem mem_slice2_zero {m : Mat} (h0 : ∀ r ∈ m, ∀ a ∈ r, a = (0:ℚ))
    (ys ye xs xe : ℕ) :
    ∀ a ∈ (slice2 m ys ye xs xe).flatten, a = 0 := by
  intro a ha
  rcases List.mem_flatten.mp ha with ⟨r, hr, har⟩
  unfold slice2 at hr
  rcases List.mem_map.mp hr with ⟨row, hrow, hre⟩
  have hrowm : row ∈ m := List.mem_of_mem_drop (List.mem_of_mem_take hrow)
  subst hre
  exact h0 row hrowm a (List.mem_of_mem_drop (List.mem_of_mem_take har))

theorem histogram9_zero {binOf : ℚ → Option ℕ} {angles weights : List ℚ}
    (hw : ∀ w ∈ weights, w = 0) :
    ∀ x ∈ histogram9 binOf angles weights, x = 0 := by
  intro x hx
  unfold histogram9 at hx
  rcases List.mem_map.mp hx with ⟨t, _, hte⟩
  subst hte
  apply List.sum_eq_zero
  intro y hy
  rcases List.mem_map.mp hy with ⟨pr, hpr, hye⟩
  subst hye
  exact hw pr.2 (List.of_mem_zip (List.mem_of_mem_filter hpr)).2

theorem hog_raw_zero {L : Libs} {m : Mat}
    (hx : ∀ r ∈ L.sobelX m, ∀ a ∈ r, a = (0:ℚ))
    (hy : ∀ r ∈ L.sobelY m, ∀ a ∈ r, a = (0:ℚ))
    (hs : L.sqrtQ 0 = 0) :
    ∀ x ∈ hog_raw L m, x = 0 := by
  intro x hxmem
  simp only [hog_raw] at hxmem
  rcases List.mem_flatMap.mp hxmem with ⟨i, _, hxi⟩
  rcases List.mem_flatMap.mp hxi with ⟨j, _, hxj⟩
  have hmag : ∀ r ∈ mat2 (fun a b => L.sqrtQ (a * a + b * b))
      (L.sobelX m) (L.sobelY m), ∀ a ∈ r, a = 0 :=
    mem_mat2_zero (by simpa using hs) hx hy
  exact histogram9_zero (mem_slice2_zero hmag _ _ _ _) x hxj

theorem compute_hog_zero {L : Libs} {m : Mat}
    (hx : ∀ r ∈ L.sobelX m, ∀ a ∈ r, a = (0:ℚ))
    (hy : ∀ r ∈ L.sobelY m, ∀ a ∈ r, a = (0:ℚ))
    (hs : L.sqrtQ 0 = 0) :
    compute_hog_features L m = List.replicate 128 0 := by
  apply List.eq_replicate_iff.mpr
  refine ⟨compute_hog_length L m, ?_⟩
  intro b hb
  unfold compute_hog_features at hb
  by_cases h : 128 < (hog_raw L m).length
  · rw [if_pos h] at hb
    exact hog_raw_zero hx hy hs b (List.mem_of_mem_take hb)
  · rw [if_neg h] at hb
    rcases List.mem_append.mp hb with hb | hb
    · exact hog_raw_zero hx hy hs b hb
    · exact List.eq_of_mem_replicate hb

theorem pairwise_faiss_search (vectors : List Vec) (q : Vec) (k : ℕ) :
    List.Pairwise pairLE (faiss_search vectors q k) :=
  List.Pairwise.sublist (List.take_sublist _ _)
    (List.sorted_insertionSort pairLE _)

theorem length_faiss_search (vectors : List Vec) (q : Vec) (k : ℕ) :
    (faiss_search vectors q k).length = min k vectors.length := by
  unfold faiss_search
  rw [List.length_take, List.length_insertionSort, List.length_map,
    length_enumerate]

theorem mem_faiss_search {vectors : List Vec} {q : Vec} {k : ℕ} {c : ℚ × ℕ}
    (h : c ∈ faiss_search vectors q k) :
    ∃ v, vectors[c.2]? = some v ∧ c.1 = sqDist q v := by
  unfold faiss_search at h
  have h1 := List.mem_of_mem_take h
  rw [List.mem_insertionSort] at h1
  rcases List.mem_map.mp h1 with ⟨p, hp, hpe⟩
  rcases mem_enumerate 0 hp with ⟨j, hj, hj1, hj2⟩
  subst hpe
  refine ⟨p.2, ?_, rfl⟩
  rw [show p.1 = j from by omega]
  exact hj2

theorem accept_antitone {t : ℚ} {a b : ℚ × ℕ} (hab : pairLE a b)
    (hb : accept t b = true) : accept t a = true := by
  unfold accept at hb ⊢
  rw [decide_eq_true_iff] at hb ⊢
  have hd : a.1 ≤ b.1 := by
    rcases hab with h | ⟨h, _⟩
    · exact le_of_lt h
    · exact le_of_eq h
  calc 1 - t ≤ max 0 (1 - b.1) := hb
    _ ≤ max 0 (1 - a.1) := max_le_max (le_refl 0) (by linarith)

theorem search_eq_filter (L : Libs) (s : FMState) (query : Vec) (k : ℕ)
    (h1 : s.vectors.length ≠ 0) (h2 : query.length = s.dimension) :
    search_similar_faces L s query k =
      ((enumerate 0 (faiss_search s.vectors (normalize L query)
          (min k s.vectors.length))).filter
        (fun p => accept s.threshold p.2)).map (mk_search_result s.metadata) := by
  unfold search_similar_faces
  rw [if_neg h1, if_neg (by omega)]
  exact filterMap_if_eq_map_filter _ _ _

theorem pairwise_cands_antitone (L : Libs) (s : FMState) (query : Vec)
    (k : ℕ) :
    List.Pairwise
      (fun p q : ℕ × (ℚ × ℕ) =>
        accept s.threshold q.2 = true → accept s.threshold p.2 = true)
      (enumerate 0 (faiss_search s.vectors (normalize L query)
        (min k s.vectors.length))) := by
  have h := pairwise_enumerate 0
    (pairwise_faiss_search s.vectors (normalize L query) (min k s.vectors.length))
  exact h.imp (fun hab hb => accept_antitone hab hb)

theorem search_take_repr (L : Libs) (s : FMState) (query : Vec) (k : ℕ)
    (h1 : s.vectors.length ≠ 0) (h2 : query.length = s.dimension) :
    search_similar_faces L s query k =
      ((enumerate 0 (faiss_search s.vectors (normalize L query)
          (min k s.vectors.length))).map (mk_search_result s.metadata)).take
        ((enumerate 0 (faiss_search s.vectors (normalize L query)
          (min k s.vectors.length))).countP (fun p => accept s.threshold p.2)) := by
  unfold search_similar_faces
  rw [if_neg h1, if_neg (by omega)]
  exact filterMap_take_of_antitone _ _ _ (pairwise_cands_antitone L s query k)

theorem add_reject (L : Libs) (s : FMState) (e : Vec) (f p : String)
    (a : Option AddMeta) (hlen : e.length ≠ s.dimension) :
    add_face_encoding L s e f p a = (false, s) := by
  unfold add_face_encoding
  rw [if_pos hlen]

theorem add_accept (L : Libs) (s : FMState) (e : Vec) (f p : String)
    (a : Option AddMeta) (hlen : e.length = s.dimension) :
    add_face_encoding L s e f p a =
      (true,
        { s with
            vectors := s.vectors ++ [normalize L e]
            metadata := dictInsert s.metadata s.vectors.length
              ⟨f, p, s.vectors.length, a⟩ }) := by
  unfold add_face_encoding
  rw [if_neg (by omega)]
  have hpos : (s.vectors ++ [normalize L e]).length - 1 = s.vectors.length := by
    rw [List.length_append]
    simp
  simp only [hpos]

theorem add_paired (L : Libs) (ps : List (Vec × FaceMeta)) (e : Vec)
    (f p : String) (a : Option AddMeta) (hlen : e.length = 128) :
    add_face_encoding L (pairedState ps) e f p a =
      (true, pairedState (ps ++ [(normalize L e, ⟨f, p, ps.length, a⟩)])) := by
  rw [add_accept L (pairedState ps) e f p a hlen]
  unfold pairedState
  have hins := dictInsert_fresh (ps.map (fun p => p.2))
    (⟨f, p, ps.length, a⟩ : FaceMeta)
  rw [List.length_map] at hins
  simp only [List.map_append, List.map_cons, List.map_nil, List.length_map,
    hins]

theorem clear_paired (ps : List (Vec × FaceMeta)) :
    clear_index (pairedState ps) = pairedState [] := rfl

theorem run_paired (L : Libs) (ops : List Op) :
    ∀ ps, run L (pairedState ps) ops = pairedState (expectedPairs L ps ops) := by
  induction ops with
  | nil => intro ps; rfl
  | cons op rest ih =>
    intro ps
    cases op with
    | clearop =>
      show run L (step L (pairedState ps) Op.clearop) rest =
        pairedState (expectedPairs L [] rest)
      rw [show step L (pairedState ps) Op.clearop = pairedState [] from
        clear_paired ps]
      exact ih []
    | addop e f p a =>
      show run L (add_face_encoding L (pairedState ps) e f p a).2 rest = _
      by_cases hlen : e.length = 128
      · rw [add_paired L ps e f p a hlen]
        show _ = pairedState (expectedPairs L
          (if e.length = 128 then
            ps ++ [(normalize L e, ⟨f, p, ps.length, a⟩)] else ps) rest)
        rw [if_pos hlen]
        exact ih _
      · rw [add_reject L (pairedState ps) e f p a (by simpa using hlen)]
        show run L (pairedState ps) rest = pairedState (expectedPairs L
          (if e.length = 128 then
            ps ++ [(normalize L e, ⟨f, p, ps.length, a⟩)] else ps) rest)
        rw [if_neg hlen]
        exact ih ps

theorem initialize_emptyDisk : initialize_index emptyDisk = pairedState [] := rfl

theorem initialize_save (s : FMState) (d : Disk) :
    initialize_index (save_index s d) = ⟨s.vectors, s.metadata, 128, 3 / 5⟩ :=
  rfl

theorem expectedPairs_append (L : Libs) (ops1 ops2 : List Op) :
    ∀ acc, expectedPairs L acc (ops1 ++ ops2) =
      expectedPairs L (expectedPairs L acc ops1) ops2 := by
  induction ops1 with
  | nil => intro acc; rfl
  | cons op rest ih =>
    intro acc
    cases op with
    | clearop => exact ih []
    | addop e f p a => exact ih _

theorem enumerate_filter_map_snd (acc : α → Bool) (n : ℕ) (l : List α) :
    ((enumerate n l).filter (fun p => acc p.2)).map (fun p => p.2) =
      l.filter acc := by
  induction l generalizing n with
  | nil => rfl
  | cons a t ih =>
    by_cases h : acc a <;>
      simp [enumerate, List.filter_cons, h, ih]

/-! ### Claim theorems -/

/-- C1: Pairing invariant.  After any sequence of index operations (fresh
creation, adds of encodings, clears), optionally interrupted by a save/load
cycle, the vector buffer and the metadata dict hold exactly the pairs
replayed from the accepted adds: vector i is the normalized encoding of the
i-th accepted add since the last clear, the record keyed by i is the record
stored at that same add, and the two counts always agree — the pairing
never desynchronizes. -/
theorem C1_pairing_invariant (L : Libs) (ops1 : List Op) (d : Disk)
    (ops2 : List Op) :
    (run L (initialize_index (save_index (run L (initialize_index emptyDisk)
        ops1) d)) ops2).vectors =
      (expectedPairs L [] (ops1 ++ ops2)).map (fun p => p.1) ∧
    (run L (initialize_index (save_index (run L (initialize_index emptyDisk)
        ops1) d)) ops2).metadata =
      enumerate 0 ((expectedPairs L [] (ops1 ++ ops2)).map (fun p => p.2)) ∧
    (run L (initialize_index (save_index (run L (initialize_index emptyDisk)
        ops1) d)) ops2).vectors.length =
      (run L (initialize_index (save_index (run L (initialize_index emptyDisk)
        ops1) d)) ops2).metadata.length := by
  have h1 : run L (initialize_index emptyDisk) ops1 =
      pairedState (expectedPairs L [] ops1) := by
    rw [initialize_emptyDisk]
    exact run_paired L ops1 []
  have h2 : initialize_index (save_index
      (pairedState (expectedPairs L [] ops1)) d) =
      pairedState (expectedPairs L [] ops1) := rfl
  have h3 : run L (initialize_index (save_index (run L
      (initialize_index emptyDisk) ops1) d)) ops2 =
      pairedState (expectedPairs L [] (ops1 ++ ops2)) := by
    rw [h1, h2, run_paired L ops2 _, expectedPairs_append]
  rw [h3]
  refine ⟨rfl, rfl, ?_⟩
  show ((expectedPairs L [] (ops1 ++ ops2)).map (fun p => p.1)).length =
    (enumerate 0 ((expectedPairs L [] (ops1 ++ ops2)).map (fun p => p.2))).length
  rw [List.length_map, length_enumerate, List.length_map]

/-- C6: Round-trip persistence.  Loading (`_initialize_index`) the snapshot
written by `_save_index` reproduces exactly the same vectors and the same
position-keyed records, hence the same position-to-record pairing. -/
theorem C6_round_trip (s : FMState) (d : Disk) :
    (initialize_index (save_index s d)).vectors = s.vectors ∧
    (initialize_index (save_index s d)).metadata = s.metadata :=
  ⟨rfl, rfl⟩

/-- C2: `search_similar_faces` on an empty index returns the empty list
(not an error); on any index it returns at most `min k count` entries,
pairwise ordered by non-decreasing distance with equal distances ordered by
lowest index position (earliest insertion first). -/
theorem C2_search_shape (L : Libs) (s : FMState) (q : Vec) (k : ℕ)
    (md : List (ℕ × FaceMeta)) (dim : ℕ) (t : ℚ) :
    search_similar_faces L ⟨[], md, dim, t⟩ q k = [] ∧
    (search_similar_faces L s q k).length ≤ min k s.vectors.length ∧
    List.Pairwise
      (fun r1 r2 : SearchResult =>
        r1.distance < r2.distance ∨
          (r1.distance = r2.distance ∧ r1.index_position ≤ r2.index_position))
      (search_similar_faces L s q k) := by
  refine ⟨rfl, ?_, ?_⟩
  · by_cases h1 : s.vectors.length = 0
    · unfold search_similar_faces
      rw [if_pos h1]
      simp
    · by_cases h2 : q.length = s.dimension
      · rw [search_eq_filter L s q k h1 h2, List.length_map]
        have hle := (List.filter_sublist (l := enumerate 0
          (faiss_search s.vectors (normalize L q) (min k s.vectors.length)))
          (p := fun p => accept s.threshold p.2)).length_le
        rw [length_enumerate, length_faiss_search] at hle
        exact le_trans hle (by omega)
      · unfold search_similar_faces
        rw [if_neg h1, if_pos (by omega)]
        simp
  · by_cases h1 : s.vectors.length = 0
    · unfold search_similar_faces
      rw [if_pos h1]
      exact List.Pairwise.nil
    · by_cases h2 : q.length = s.dimension
      · rw [search_eq_filter L s q k h1 h2]
        apply List.pairwise_map.mpr
        have hp := List.Pairwise.sublist
          (List.filter_sublist (p := fun p => accept s.threshold p.2)
            (enumerate 0 (faiss_search s.vectors (normalize L q)
              (min k s.vectors.length))))
          (pairwise_enumerate 0 (pairwise_faiss_search s.vectors
            (normalize L q) (min k s.vectors.length)))
        apply hp.imp
        intro a b hab
        rcases hab with h | ⟨he, hle⟩
        · exact Or.inl h
        · exact Or.inr ⟨he, hle⟩
      · unfold search_similar_faces
        rw [if_neg h1, if_pos (by omega)]
        exact List.Pairwise.nil

/-- C10: the accepted candidates are a front segment of the distance-sorted
candidate list — `search_similar_faces` equals the decorated candidate list
truncated at the number of results — and consequently the rank fields of
the results are the consecutive integers 1, 2, ..., m. -/
theorem C10_accepted_front (L : Libs) (s : FMState) (q : Vec) (k : ℕ) :
    search_similar_faces L s q k =
      ((enumerate 0 (faiss_search s.vectors (normalize L q)
        (min k s.vectors.length))).map (mk_search_result s.metadata)).take
        (search_similar_faces L s q k).length ∧
    (search_similar_faces L s q k).map (fun r => r.rank) =
      List.range' 1 (search_similar_faces L s q k).length := by
  by_cases h1 : s.vectors.length = 0
  · constructor
    · unfold search_similar_faces
      rw [if_pos h1]
      simp
    · unfold search_similar_faces
      rw [if_pos h1]
      rfl
  by_cases h2 : q.length = s.dimension
  · have hrepr := search_take_repr L s q k h1 h2
    have hcle : (enumerate 0 (faiss_search s.vectors (normalize L q)
        (min k s.vectors.length))).countP (fun p => accept s.threshold p.2) ≤
        (faiss_search s.vectors (normalize L q) (min k s.vectors.length)).length := by
      have hc := List.countP_le_length (p := fun p => accept s.threshold p.2)
        (l := enumerate 0 (faiss_search s.vectors (normalize L q)
          (min k s.vectors.length)))
      rwa [length_enumerate] at hc
    have hlen : (search_similar_faces L s q k).length =
        (enumerate 0 (faiss_search s.vectors (normalize L q)
          (min k s.vectors.length))).countP (fun p => accept s.threshold p.2) := by
      rw [hrepr, List.length_take, List.length_map, length_enumerate]
      omega
    constructor
    · rw [hlen]
      exact hrepr
    · rw [hlen, hrepr, ← List.map_take, List.map_map, enumerate_take]
      have hranks := enumerate_map_rank 0
        ((faiss_search s.vectors (normalize L q) (min k s.vectors.length)).take
          ((enumerate 0 (faiss_search s.vectors (normalize L q)
            (min k s.vectors.length))).countP (fun p => accept s.threshold p.2)))
      rw [List.length_take, min_eq_left hcle] at hranks
      exact hranks
  · constructor
    · unfold search_similar_faces
      rw [if_neg h1, if_pos (by omega)]
      simp
    · unfold search_similar_faces
      rw [if_neg h1, if_pos (by omega)]
      rfl

/-- C7: every result of `search_similar_faces` carries
`similarity = max 0 (1 - distance)` where its distance is the squared L2
distance between the normalized query and the stored vector at its index
position, and a nearest-neighbour candidate is included in the results if
and only if it passes the threshold test `similarity >= 1 - threshold`
(the result list projects onto exactly the accepted candidates);
the threshold is the single constructor-set value, defaulting to 0.6. -/
theorem C7_similarity_threshold (L : Libs) (s : FMState) (q : Vec) (k : ℕ)
    (hq : q.length = s.dimension) :
    (∀ r ∈ search_similar_faces L s q k,
      r.similarity = max 0 (1 - r.distance) ∧
      1 - s.threshold ≤ r.similarity ∧
      ∃ v, s.vectors[r.index_position]? = some v ∧
        r.distance = sqDist (normalize L q) v) ∧
    (search_similar_faces L s q k).map (fun r => (r.distance, r.index_position)) =
      (faiss_search s.vectors (normalize L q) (min k s.vectors.length)).filter
        (accept s.threshold) ∧
    (∀ d : Disk, (initialize_index d).threshold = 3 / 5) := by
  by_cases h1 : s.vectors.length = 0
  · have hempty : search_similar_faces L s q k = [] := by
      unfold search_similar_faces
      rw [if_pos h1]
    have hnil : s.vectors = [] := List.length_eq_zero.mp h1
    refine ⟨?_, ?_, ?_⟩
    · intro r hr
      rw [hempty] at hr
      cases hr
    · rw [hempty, hnil]
      simp [faiss_search, enumerate, List.insertionSort]
    · intro d
      unfold initialize_index
      cases hd1 : d.indexFile <;> cases hd2 : d.metadataFile <;> rfl
  refine ⟨?_, ?_, ?_⟩
  · intro r hr
    rw [search_eq_filter L s q k h1 hq] at hr
    rcases List.mem_map.mp hr with ⟨p, hp, hpe⟩
    have hacc0 := List.of_mem_filter
      (p := fun p : ℕ × ℚ × ℕ => accept s.threshold p.2) hp
    have hacc : accept s.threshold p.2 = true := hacc0
    have hmem : p.2 ∈ faiss_search s.vectors (normalize L q)
        (min k s.vectors.length) :=
      mem_enumerate_snd 0 (List.mem_of_mem_filter hp)
    rcases mem_faiss_search hmem with ⟨v, hv1, hv2⟩
    subst hpe
    refine ⟨rfl, ?_, v, hv1, hv2⟩
    unfold accept at hacc
    rw [decide_eq_true_iff] at hacc
    exact hacc
  · rw [search_eq_filter L s q k h1 hq, List.map_map]
    have hfun : (fun r : SearchResult => (r.distance, r.index_position)) ∘
        mk_search_result s.metadata = fun p : ℕ × (ℚ × ℕ) => p.2 := by
      funext p
      show (p.2.1, p.2.2) = p.2
      rfl
    rw [hfun]
    exact enumerate_filter_map_snd (accept s.threshold) 0 _
  · intro d
    unfold initialize_index
    cases hd1 : d.indexFile <;> cases hd2 : d.metadataFile <;> rfl

/-- C8: threshold monotonicity — for a fixed query and fixed index
contents, raising the threshold never decreases the number of results
accepted by the threshold test. -/
theorem C8_threshold_monotone (L : Libs) (s : FMState) (q : Vec) (k : ℕ)
    (t1 t2 : ℚ) (h : t1 ≤ t2) :
    (search_similar_faces L { s with threshold := t1 } q k).length ≤
      (search_similar_faces L { s with threshold := t2 } q k).length := by
  by_cases h1 : s.vectors.length = 0
  · unfold search_similar_faces
    rw [if_pos h1, if_pos h1]
  by_cases h2 : q.length = s.dimension
  · rw [search_eq_filter L { s with threshold := t1 } q k h1 h2,
      search_eq_filter L { s with threshold := t2 } q k h1 h2,
      List.length_map, List.length_map]
    apply List.Sublist.length_le
    apply List.monotone_filter_right
    intro p hp
    unfold accept at hp ⊢
    rw [decide_eq_true_iff] at hp ⊢
    calc (1 : ℚ) - t2 ≤ 1 - t1 := by linarith
      _ ≤ max 0 (1 - p.2.1) := hp
  · unfold search_similar_faces
    rw [if_neg h1, if_neg h1, if_pos h2, if_pos h2]

/-! ### Concrete instances for witnesses and counterexamples -/

/-- Membership in a matrix mapped to all zeros. -/
theorem mem_map_zero (m : Mat) :
    ∀ r ∈ m.map (fun row => row.map (fun _ => (0:ℚ))), ∀ a ∈ r, a = 0 := by
  intro r hr a ha
  rcases List.mem_map.mp hr with ⟨row, _, hre⟩
  subst hre
  rcases List.mem_map.mp ha with ⟨w, _, hae⟩
  exact hae.symm

/-- Library oracle consistent with an all-constant input: Sobel of a
constant image is the zero matrix, `np.sqrt` is the identity on the only
value it is applied to (0), `np.arctan2 0 0 = 0`, the zero angle falls in
the middle histogram bin, and the norm of the zero vector is 0.  `resize`
and `toGray` of constant-zero data are constant-zero. -/
def zeroLibs : Libs :=
  { norm := fun _ => 0
    resize := fun _ => List.replicate 128 (List.replicate 128 ((0:ℚ), (0:ℚ), (0:ℚ)))
    toGray := fun m => m.map (fun row => row.map (fun _ => 0))
    sobelX := fun m => m.map (fun row => row.map (fun _ => 0))
    sobelY := fun m => m.map (fun row => row.map (fun _ => 0))
    sqrtQ := fun q => q
    atan2Q := fun _ _ => 0
    binOf := fun _ => some 4 }

/-- A 2×2 constant-zero RGB image. -/
def imageZ : RGBMat :=
  List.replicate 2 (List.replicate 2 ((0:ℚ), (0:ℚ), (0:ℚ)))

/-- A bounding box covering the top-left pixel. -/
def bb2 : BBox := ⟨0, 0, 1, 1⟩

/-- On `zeroLibs`, any non-empty face region encodes to the all-zero
128-vector: all histograms are zero and the final division is by the zero
norm. -/
theorem generate_zeroLibs (image : RGBMat) (bb : BBox)
    (hne : ¬rgbSize (face_region_of image bb) = 0) :
    generate_face_encoding zeroLibs image bb =
      Except.ok (List.replicate 128 0) := by
  unfold generate_face_encoding
  rw [if_neg hne]
  have hzero : raw_features zeroLibs image bb = List.replicate 128 0 := by
    unfold raw_features
    apply compute_hog_zero
    · exact mem_map_zero _
    · exact mem_map_zero _
    · rfl
  rw [hzero, normalize_replicate_zero]

/-- Library oracle for witnesses: `np.linalg.norm` returns 1 (consistent
with the unit vectors it is applied to in the witnesses). -/
def constLibs : Libs :=
  { norm := fun _ => 1
    resize := fun m => m
    toGray := fun _ => []
    sobelX := fun m => m
    sobelY := fun m => m
    sqrtQ := fun q => q
    atan2Q := fun _ _ => 0
    binOf := fun _ => some 4 }

/-- A 16×16 constant-one grayscale image (a single HOG cell). -/
def grayC : Mat := List.replicate 16 (List.replicate 16 (1:ℚ))

/-- Library oracle for the C3 witness: the gray conversion yields `grayC`,
the x-gradient is the image itself and the y-gradient is zero, `np.sqrt`
agrees with the values it is applied to, every angle falls in bin 4, and
the norm oracle returns the true Euclidean norm 256 of the resulting
feature vector. -/
def wLibs : Libs :=
  { norm := fun _ => 256
    resize := fun m => m
    toGray := fun _ => grayC
    sobelX := fun m => m
    sobelY := fun m => m.map (fun row => row.map (fun _ => 0))
    sqrtQ := fun q => q
    atan2Q := fun _ _ => 0
    binOf := fun _ => some 4 }

/-- The raw feature vector of the C3 witness input: all magnitude mass
(16·16 pixels of magnitude 1) in bin 4 of the single cell, zero-padded to
128 entries. -/
def wRaw : Vec := [0, 0, 0, 0, 256, 0, 0, 0, 0] ++ List.replicate 119 0

/-- The normalized encoding of the C3 witness input. -/
def wEnc : Vec := [0, 0, 0, 0, 1, 0, 0, 0, 0] ++ List.replicate 119 0

theorem zipWith_replicate_same {α β γ : Type} (f : α → β → γ) (n : ℕ)
    (a : α) (b : β) :
    List.zipWith f (List.replicate n a) (List.replicate n b) =
      List.replicate n (f a b) := by
  induction n with
  | zero => rfl
  | succ n ih => simp [List.replicate_succ, ih]

theorem flatten_rep_rep {α : Type} (n m : ℕ) (a : α) :
    (List.replicate n (List.replicate m a)).flatten =
      List.replicate (n * m) a := by
  induction n with
  | zero => simp
  | succ n ih =>
    rw [List.replicate_succ, List.flatten_cons, ih, ← List.replicate_add]
    rw [show m + n * m = (n + 1) * m from by ring]

theorem replicate_filter {α : Type} (p : α → Bool) (n : ℕ) (a : α) :
    (List.replicate n a).filter p =
      if p a then List.replicate n a else [] := by
  induction n with
  | zero => simp
  | succ n ih =>
    rw [List.replicate_succ, List.filter_cons]
    by_cases h : p a <;> simp [h, ih, List.replicate_succ]

theorem histogram9_wLibs :
    histogram9 wLibs.binOf (List.replicate 256 0) (List.replicate 256 1) =
      [0, 0, 0, 0, 256, 0, 0, 0, 0] := by
  unfold histogram9
  rw [show List.range 9 = [0, 1, 2, 3, 4, 5, 6, 7, 8] from rfl]
  rw [show (List.replicate 256 (0:ℚ)).zip (List.replicate 256 (1:ℚ)) =
      List.replicate 256 ((0:ℚ), (1:ℚ)) from
    zipWith_replicate_same Prod.mk 256 0 1]
  norm_num [replicate_filter, wLibs, List.map_replicate, List.sum_replicate]

theorem slice2_rep (c : ℚ) :
    slice2 (List.replicate 16 (List.replicate 16 c)) 0 16 0 16 =
      List.replicate 16 (List.replicate 16 c) := by
  unfold slice2
  simp [List.take_replicate, List.map_replicate]

theorem hog_raw_wLibs : hog_raw wLibs grayC = [0, 0, 0, 0, 256, 0, 0, 0, 0] := by
  have hgx : wLibs.sobelX grayC = List.replicate 16 (List.replicate 16 (1:ℚ)) :=
    rfl
  have hgy : wLibs.sobelY grayC = List.replicate 16 (List.replicate 16 (0:ℚ)) := by
    show grayC.map (fun row => row.map fun _ => 0) =
      List.replicate 16 (List.replicate 16 (0:ℚ))
    unfold grayC
    simp [List.map_replicate]
  have hmag : mat2 (fun a b => wLibs.sqrtQ (a * a + b * b))
      (List.replicate 16 (List.replicate 16 (1:ℚ)))
      (List.replicate 16 (List.replicate 16 (0:ℚ))) =
      List.replicate 16 (List.replicate 16 (1:ℚ)) := by
    unfold mat2
    rw [zipWith_replicate_same, zipWith_replicate_same]
    norm_num [wLibs]
  have hang : mat2 (fun a b => wLibs.atan2Q b a)
      (List.replicate 16 (List.replicate 16 (1:ℚ)))
      (List.replicate 16 (List.replicate 16 (0:ℚ))) =
      List.replicate 16 (List.replicate 16 (0:ℚ)) := by
    unfold mat2
    rw [zipWith_replicate_same, zipWith_replicate_same]
    rfl
  have hlen : grayC.length = 16 := by simp [grayC]
  have hw : matW grayC = 16 := by
    unfold matW grayC
    rw [List.replicate_succ]
    simp
  unfold hog_raw
  simp only [hgx, hgy, hmag, hang, hlen, hw]
  rw [show (16 : ℕ) / 16 = 1 from rfl, show List.range 1 = [0] from rfl]
  simp only [List.flatMap_cons, List.flatMap_nil, List.append_nil]
  norm_num [slice2_rep, flatten_rep_rep]
  exact histogram9_wLibs

theorem raw_wLibs : raw_features wLibs imageZ bb2 = wRaw := by
  show compute_hog_features wLibs grayC = wRaw
  unfold compute_hog_features
  rw [hog_raw_wLibs]
  rw [if_neg (by decide)]
  rfl

theorem sqSum_wRaw : sqSum wRaw = 65536 := by
  unfold sqSum wRaw
  norm_num [List.map_append, List.map_replicate, List.sum_append,
    List.sum_replicate]

theorem sqSum_wEnc : sqSum wEnc = 1 := by
  unfold sqSum wEnc
  norm_num [List.map_append, List.map_replicate, List.sum_append,
    List.sum_replicate]

theorem generate_wLibs :
    generate_face_encoding wLibs imageZ bb2 = Except.ok wEnc := by
  unfold generate_face_encoding
  rw [if_neg (by decide), raw_wLibs]
  congr 1
  unfold normalize
  rw [show wLibs.norm wRaw = 256 from rfl]
  unfold wRaw wEnc
  norm_num [List.map_append, List.map_replicate]

/-- A stored record for small search witnesses. -/
def metaA : FaceMeta := ⟨"face0", "alice", 0, none⟩

/-- A 2-dimensional index state holding one unit vector. -/
def stateA : FMState := ⟨[[1, 0]], [(0, metaA)], 2, 3 / 5⟩

/-- A query equal to the stored vector of `stateA`. -/
def qA : Vec := [1, 0]

/-- C3 (amended): every successful `generate_face_encoding` output has
exactly 128 elements; and whenever `np.linalg.norm` behaves as a true
Euclidean norm on the feature vector and the concatenated cell histograms
are not all zero, the output has unit Euclidean norm (sum of squares 1).
For the all-zero feature vector — e.g. a constant-intensity region — the
division by the zero norm does not produce a unit vector. -/
theorem C3_encoding_shape (L : Libs) (image : RGBMat) (bb : BBox) (v : Vec)
    (hok : generate_face_encoding L image bb = Except.ok v) :
    v.length = 128 ∧
    (L.norm (raw_features L image bb) * L.norm (raw_features L image bb) =
        sqSum (raw_features L image bb) →
      sqSum (raw_features L image bb) ≠ 0 → sqSum v = 1) := by
  unfold generate_face_encoding at hok
  by_cases h : rgbSize (face_region_of image bb) = 0
  · rw [if_pos h] at hok
    cases hok
  · rw [if_neg h] at hok
    have hv : v = normalize L (raw_features L image bb) :=
      (Except.ok.inj hok).symm
    constructor
    · rw [hv, length_normalize]
      exact compute_hog_length L _
    · intro hn hnz
      rw [hv]
      exact sqSum_normalize hn hnz

/-- C3 witness: on the witness oracle and image the encoding is `wEnc`,
whose norm hypotheses hold concretely, so its squared norm is 1. -/
theorem C3_witness : sqSum wEnc = 1 :=
  (C3_encoding_shape wLibs imageZ bb2 wEnc generate_wLibs).2
    (by rw [raw_wLibs, sqSum_wRaw]; norm_num [wLibs])
    (by rw [raw_wLibs, sqSum_wRaw]; norm_num)

/-- C3 counterexample: the constant-zero 2×2 image with a valid (non-empty)
face region — every cell histogram is zero because a constant image has
zero gradients, so the feature vector is all-zero and the division by its
zero Euclidean norm leaves a non-unit vector: the encoding produced has 128
elements but squared norm 0, not 1. -/
theorem C3_counterexample :
    generate_face_encoding zeroLibs imageZ bb2 =
      Except.ok (List.replicate 128 0) ∧
    ¬rgbSize (face_region_of imageZ bb2) = 0 ∧
    ¬sqSum (List.replicate 128 0) = 1 := by
  refine ⟨generate_zeroLibs imageZ bb2 (by decide), by decide, ?_⟩
  rw [sqSum_replicate_zero]
  norm_num

/-- C4 (amended): a 1-D input whose length differs from the configured
dimension 128 is rejected — `add_face_encoding` returns `False` and stores
nothing; a 128-element vector is divided by its norm and appended, and the
appended vector is a unit vector whenever the input is nonzero and
`np.linalg.norm` computes a true Euclidean norm on it.  The all-zero
128-vector is still appended, but dividing by its zero norm does not yield
a unit vector. -/
theorem C4_add_validation (L : Libs) (s : FMState) (enc : Vec)
    (fid pname : String) (am : Option AddMeta) (hdim : s.dimension = 128) :
    (enc.length ≠ 128 → add_face_encoding L s enc fid pname am = (false, s)) ∧
    (enc.length = 128 →
      (add_face_encoding L s enc fid pname am).1 = true ∧
      (add_face_encoding L s enc fid pname am).2.vectors =
        s.vectors ++ [normalize L enc]) ∧
    (L.norm enc * L.norm enc = sqSum enc → sqSum enc ≠ 0 →
      sqSum (normalize L enc) = 1) := by
  refine ⟨?_, ?_, fun hn hnz => sqSum_normalize hn hnz⟩
  · intro hl
    exact add_reject L s enc fid pname am (by omega)
  · intro hl
    rw [add_accept L s enc fid pname am (by omega)]
    exact ⟨rfl, rfl⟩

/-- C4 witness: adding the concrete unit 128-vector `wEnc` succeeds and
its normalization has unit squared norm. -/
theorem C4_witness :
    (add_face_encoding constLibs (initialize_index emptyDisk) wEnc "f0"
      "alice" none).1 = true ∧
    sqSum (normalize constLibs wEnc) = 1 :=
  ⟨((C4_add_validation constLibs (initialize_index emptyDisk) wEnc "f0"
      "alice" none rfl).2.1 (by decide)).1,
   (C4_add_validation constLibs (initialize_index emptyDisk) wEnc "f0"
      "alice" none rfl).2.2
     (by rw [sqSum_wEnc, show constLibs.norm wEnc = 1 from rfl]; norm_num)
     (by rw [sqSum_wEnc]; norm_num)⟩

/-- C4 counterexample: adding the 128-dimensional all-zero vector succeeds
(returns True) and appends the result of dividing it by its zero norm —
the zero vector again, which has squared norm 0, not unit length. -/
theorem C4_counterexample :
    (add_face_encoding zeroLibs (initialize_index emptyDisk)
      (List.replicate 128 0) "f0" "alice" none).1 = true ∧
    (add_face_encoding zeroLibs (initialize_index emptyDisk)
      (List.replicate 128 0) "f0" "alice" none).2.vectors =
      [List.replicate 128 0] ∧
    ¬sqSum (List.replicate 128 0) = 1 := by
  have hadd := add_accept zeroLibs (initialize_index emptyDisk)
    (List.replicate 128 0) "f0" "alice" none (by decide)
  rw [hadd]
  refine ⟨rfl, ?_, ?_⟩
  · show [] ++ [normalize zeroLibs (List.replicate 128 0)] = _
    rw [normalize_replicate_zero]
    rfl
  · rw [sqSum_replicate_zero]
    norm_num

/-- C5 (amended): a successful `add_face_encoding` returns the constant
`True` — not the position; the new position, equal to the count of vectors
stored before the insertion, is recorded in the stored record's
`index_position` field, and the vector is appended at exactly that
position. -/
theorem C5_position_metadata (L : Libs) (s : FMState) (enc : Vec)
    (fid pname : String) (am : Option AddMeta)
    (hlen : enc.length = s.dimension) :
    (add_face_encoding L s enc fid pname am).1 = true ∧
    lookupA (add_face_encoding L s enc fid pname am).2.metadata
        s.vectors.length = some ⟨fid, pname, s.vectors.length, am⟩ ∧
    (add_face_encoding L s enc fid pname am).2.vectors.length =
      s.vectors.length + 1 ∧
    (add_face_encoding L s enc fid pname am).2.vectors[s.vectors.length]? =
      some (normalize L enc) := by
  rw [add_accept L s enc fid pname am hlen]
  refine ⟨rfl, lookupA_dictInsert_self _ _ _, by simp, ?_⟩
  exact List.getElem?_concat_length _ _

/-- C5 witness: a concrete successful add at prior count 1 returns True
and stores the record under key 1 with index_position 1. -/
theorem C5_witness :
    (add_face_encoding constLibs stateA qA "f1" "bob" none).1 = true ∧
    lookupA (add_face_encoding constLibs stateA qA "f1" "bob"
        none).2.metadata stateA.vectors.length =
      some ⟨"f1", "bob", stateA.vectors.length, none⟩ :=
  ⟨(C5_position_metadata constLibs stateA qA "f1" "bob" none rfl).1,
   (C5_position_metadata constLibs stateA qA "f1" "bob" none rfl).2.1⟩

/-- C5 counterexample: two consecutive successful adds — the first at prior
count 0, the second at prior count 1 — both return the very same value
(the boolean True): the value returned by `add_face_encoding` does not
equal the count of vectors stored before the insertion. -/
theorem C5_counterexample :
    (add_face_encoding constLibs (initialize_index emptyDisk) wEnc "a" "A"
      none).1 =
      (add_face_encoding constLibs
        (add_face_encoding constLibs (initialize_index emptyDisk) wEnc "a"
          "A" none).2 wEnc "b" "B" none).1 ∧
    (initialize_index emptyDisk).vectors.length = 0 ∧
    (add_face_encoding constLibs (initialize_index emptyDisk) wEnc "a" "A"
      none).2.vectors.length = 1 := by
  have h1 := add_accept constLibs (initialize_index emptyDisk) wEnc "a" "A"
    none (by decide)
  have h2 := add_accept constLibs
    (add_face_encoding constLibs (initialize_index emptyDisk) wEnc "a" "A"
      none).2 wEnc "b" "B" none (by rw [h1]; decide)
  refine ⟨?_, rfl, ?_⟩
  · rw [h2, h1]
  · rw [h1]
    show ([] ++ [normalize constLibs wEnc]).length = 1
    simp

/-- A detection whose padded crop inside `imageZ` is valid (non-empty). -/
def goodDet : Detection := ⟨bb2, 9 / 10, 1⟩

/-- A detection whose bounding box lies far below the 2×2 image: the padded
crop `image[80:2, ...]` is empty, so its encode step raises. -/
def badDet : Detection := ⟨⟨0, 100, 1, 1⟩, 1 / 2, 0⟩

/-- The per-face outcome recognition produces for `goodDet` against the
empty index. -/
def outcomeG : FaceOutcome :=
  ⟨List.replicate 128 0, 9 / 10, bb2, 1, "Unknown", 0, false, []⟩

theorem try_face_good :
    try_face zeroLibs (initialize_index emptyDisk) imageZ goodDet =
      some outcomeG := by
  unfold try_face
  rw [show goodDet.bounding_box = bb2 from rfl]
  rw [generate_zeroLibs imageZ bb2 (by decide)]
  rfl

theorem try_face_bad :
    try_face zeroLibs (initialize_index emptyDisk) imageZ badDet = none := by
  unfold try_face generate_face_encoding
  rw [if_pos (by decide)]

/-- C9 (amended): recognition never aborts the whole request for one bad
face — it always reports success, the returned list consists of exactly
the outcomes of the detections whose per-face encode+search step succeeds
(each computed independently, so one face's failure cannot remove
another's outcome), and failed faces are visible only through
`total_processed` being smaller than `total_detected`: a failed face
contributes no per-face outcome entry of its own. -/
theorem C9_isolation (L : Libs) (s : FMState) (image : RGBMat)
    (d0 : Detection) (ds : List Detection) :
    (process_image_for_recognition L s image (d0 :: ds)).success = true ∧
    (process_image_for_recognition L s image (d0 :: ds)).faces =
      (d0 :: ds).filterMap (try_face L s image) ∧
    (∀ f ∈ d0 :: ds, ∀ o, try_face L s image f = some o →
      o ∈ (process_image_for_recognition L s image (d0 :: ds)).faces) ∧
    (process_image_for_recognition L s image (d0 :: ds)).total_detected =
      some (d0 :: ds).length ∧
    (process_image_for_recognition L s image (d0 :: ds)).total_processed =
      some ((d0 :: ds).filterMap (try_face L s image)).length := by
  unfold process_image_for_recognition
  rw [if_neg (by simp)]
  refine ⟨rfl, rfl, ?_, rfl, rfl⟩
  intro f hf o ho
  exact List.mem_filterMap.mpr ⟨f, hf, ho⟩

/-- C9 witness: on the concrete two-detection input whose first face fails,
the second face's outcome is still contained in the returned list. -/
theorem C9_witness :
    outcomeG ∈ (process_image_for_recognition zeroLibs
      (initialize_index emptyDisk) imageZ [badDet, goodDet]).faces :=
  (C9_isolation zeroLibs (initialize_index emptyDisk) imageZ badDet
      [goodDet]).2.2.1 goodDet
    (List.mem_cons_of_mem _ (List.mem_cons_self _ _)) outcomeG try_face_good

/-- C9 counterexample: on the detections [0, 1] where detection 0's padded
crop is empty (its encode step raises), the returned list holds an outcome
for detection 1 only — the failure of detection 0 is not recorded as a
per-face outcome; it is visible only in the total counts (2 detected,
1 processed). -/
theorem C9_counterexample :
    (process_image_for_recognition zeroLibs (initialize_index emptyDisk)
      imageZ [badDet, goodDet]).faces.map (fun o => o.detection_id) = [1] ∧
    (process_image_for_recognition zeroLibs (initialize_index emptyDisk)
      imageZ [badDet, goodDet]).total_detected = some 2 ∧
    ¬(process_image_for_recognition zeroLibs (initialize_index emptyDisk)
      imageZ [badDet, goodDet]).faces.length = 2 := by
  have hfaces : (process_image_for_recognition zeroLibs
      (initialize_index emptyDisk) imageZ [badDet, goodDet]).faces =
      [outcomeG] := by
    unfold process_image_for_recognition
    rw [if_neg (by simp)]
    show List.filterMap (try_face zeroLibs (initialize_index emptyDisk)
      imageZ) [badDet, goodDet] = [outcomeG]
    rw [List.filterMap_cons_none try_face_bad,
      List.filterMap_cons_some try_face_good, List.filterMap_nil]
  refine ⟨?_, ?_, ?_⟩
  · rw [hfaces]
    rfl
  · unfold process_image_for_recognition
    rw [if_neg (by simp)]
    rfl
  · rw [hfaces]
    decide

/-- C7 witness: on a concrete one-vector index and a matching 2-element
query, the result list projects exactly onto the threshold-accepted
nearest-neighbour candidates. -/
theorem C7_witness :
    (search_similar_faces constLibs stateA qA 5).map
        (fun r => (r.distance, r.index_position)) =
      (faiss_search stateA.vectors (normalize constLibs qA)
        (min 5 stateA.vectors.length)).filter (accept stateA.threshold) :=
  (C7_similarity_threshold constLibs stateA qA 5 rfl).2.1

/-- C8 witness: on the concrete one-vector index, raising the threshold
from 0 to 1 does not decrease the number of accepted results. -/
theorem C8_witness :
    (search_similar_faces constLibs { stateA with threshold := 0 } qA
      5).length ≤
      (search_similar_faces constLibs { stateA with threshold := 1 } qA
        5).length :=
  C8_threshold_monotone constLibs stateA qA 5 0 1 (by norm_num)

end FaceRec
